import Mathlib

/-!
# URL shortener (`handler.go`)

A shallow embedding of `handler.go`: the request dispatcher `MapHandler`, the
YAML front end `YAMLHandler`, and the two helpers `createSliceOfPathAndURL`
and `createMapOfPathAndURL`.

Conventions of the embedding.

* A Go `string` is a `String`; a Go `[]byte` is a list of bytes.
* A Go `map[string]string` is a finite map from `String` to `String`.  Reading
  a `nil` map behaves as reading the empty map, so both are `∅`.
* `http.ResponseWriter` is the state a handler acts on: the header map that
  `w.Header()` returns and the `WriteHeader`/`Write` calls received so far.  A
  handler is a function from that state (and the request) to the new state.
* The result of the closure built by `MapHandler` also lists the calls its body
  made, so that "which branch ran" can be observed.
* The two library functions the file calls, `http.Redirect` and
  `yaml.Unmarshal`, are parameters of the definitions that call them.  They
  are modelled after the definitions of `handler.go`: `http.Redirect` from
  `net/http` with `url.Parse` as a parameter, and `yaml.Unmarshal` from the
  decoder of `gopkg.in/yaml.v2` with the YAML parser as a parameter.
-/

/-! ## HTTP data model -/

namespace url

/-- The fields of `net/url.URL` that a request URL carries here. -/
structure URL where
  Scheme : String
  Host : String
  Path : String
  RawQuery : String
deriving DecidableEq

end url

namespace http

/-- The type `http.Header`, a map from (canonical) header names to value lists. -/
abbrev Header := Finmap (fun _ : String => List String)

/-- The constant `http.StatusFound`. -/
def StatusFound : Nat := 302

/-- An incoming request, `*http.Request`. -/
structure Request where
  Method : String
  URL : url.URL
  Header : http.Header
  Body : String
deriving DecidableEq

/-- A call of one of the two writing methods of `http.ResponseWriter`. -/
inductive WriterCall where
  | WriteHeader (statusCode : Nat)
  | Write (data : String)
deriving DecidableEq

/-- The state behind an `http.ResponseWriter`: the header map returned by
`Header()` and the `WriteHeader`/`Write` calls received so far, oldest first. -/
structure ResponseWriter where
  header : http.Header
  written : List WriterCall
deriving DecidableEq

/-- The interface `http.Handler`: anything with a `ServeHTTP(w, r)` method. -/
structure Handler where
  ServeHTTP : ResponseWriter → Request → ResponseWriter

/-- A call made by the body of the closure that `MapHandler` returns. -/
inductive Call where
  | Redirect (w : ResponseWriter) (r : Request) (url : String) (code : Nat)
  | ServeHTTP (w : ResponseWriter) (r : Request)
deriving DecidableEq

/-- What one invocation of a handler function leaves behind: the response
writer after it returns and the calls its body made, in order. -/
structure Outcome where
  w : ResponseWriter
  calls : List Call
deriving DecidableEq

/-- The type `http.HandlerFunc`, a function used as a handler. -/
abbrev HandlerFunc := ResponseWriter → Request → Outcome

/-- The method `HandlerFunc.ServeHTTP`, which calls `f(w, r)`: a handler function
is itself an `http.Handler`. -/
def HandlerFunc.ServeHTTP (f : HandlerFunc) : Handler :=
  ⟨fun w r => (f w r).w⟩

/-- The signature of `http.Redirect(w, r, url, code)`. -/
abbrev RedirectFn := ResponseWriter → Request → String → Nat → ResponseWriter

end http

/-! ## `handler.go` -/

/-- A Go `map[string]string`. -/
abbrev GoMap := Finmap (fun _ : String => String)

/-- The builtin `len(m)` of a map: its number of keys. -/
def GoMap.len (m : GoMap) : Nat := m.keys.card

/-- A Go `[]byte`. -/
abbrev Bytes := List UInt8

/-- A non-nil Go `error` value, identified by its message. -/
structure GoError where
  msg : String
deriving DecidableEq

/-- The struct `pathAndURL`. -/
structure pathAndURL where
  Path : String
  URL : String
deriving DecidableEq

/-- The signature of `yaml.Unmarshal(yml, &slicePU)` at the type `*[]pathAndURL`:
given the input and the slice before the call, the slice after the call and
the returned error (`none` for `nil`). -/
abbrev UnmarshalFn := Bytes → List pathAndURL → List pathAndURL × Option GoError

/-- The function `MapHandler`: the returned closure looks the request path up in
the map and either redirects with `http.StatusFound` or calls the fallback. -/
def MapHandler (Redirect : http.RedirectFn) (pathsToUrls : GoMap) (fallback : http.Handler) :
    http.HandlerFunc :=
  fun w r =>
    let path := r.URL.Path
    match (pathsToUrls.lookup path : Option String) with
    | some url => ⟨Redirect w r url http.StatusFound, [.Redirect w r url http.StatusFound]⟩
    | none => ⟨fallback.ServeHTTP w r, [.ServeHTTP w r]⟩

/-- The function `createSliceOfPathAndURL`: unmarshal into a `nil` slice and
return the slice together with the decoder's error. -/
def createSliceOfPathAndURL (Unmarshal : UnmarshalFn) (yml : Bytes) :
    List pathAndURL × Option GoError :=
  let slicePU : List pathAndURL := []
  let (slicePU, err) := Unmarshal yml slicePU
  (slicePU, err)

/-- The function `createMapOfPathAndURL`: starting from an empty map, assign
`mapPU[a.Path] = a.URL` for every element in slice order. -/
def createMapOfPathAndURL (slicePU : List pathAndURL) : GoMap :=
  slicePU.foldl (fun mapPU a => mapPU.insert a.Path a.URL) ∅

/-- The function `YAMLHandler`: decode, return `nil, err` on a decoding error,
otherwise build the map and return the `MapHandler` closure with a `nil` error. -/
def YAMLHandler (Redirect : http.RedirectFn) (Unmarshal : UnmarshalFn) (yml : Bytes)
    (fallback : http.Handler) : Option http.HandlerFunc × Option GoError :=
  let (sliceOfPathAndURL, err) := createSliceOfPathAndURL Unmarshal yml
  match err with
  | some e => (none, some e)
  | none =>
    let mapOfPathAndURL := createMapOfPathAndURL sliceOfPathAndURL
    (some (MapHandler Redirect mapOfPathAndURL fallback), none)

/-! ## The part of `net/http` behind `http.Redirect`

The functions below follow the Go standard library (`path.Split`,
`path.Clean`, and `hexEscapeNonASCII`, `htmlEscape`, `StatusText` and
`Redirect` of `net/http`).  The Go code indexes bytes; the only bytes it
tests for are the ASCII characters `/`, `.`, `?`, `&`, `<`, `>` and the two
quotes, which never occur inside a multi-byte UTF-8 sequence, so the same
steps are taken here over characters.  `url.Parse` is a parameter: `Redirect`
reads only its error and the `Scheme` and `Host` of its result. -/

namespace path

/-- The function `path.Split`: the text up to and including the last slash and
the text after it. -/
def Split (path : String) : String × String :=
  let rev := path.data.reverse
  (String.mk (rev.dropWhile (fun c => c != '/')).reverse,
   String.mk (rev.takeWhile (fun c => c != '/')).reverse)

/-- The inner loop of the `..` case of `path.Clean`, on the reversed buffer:
`last` is `out.index(out.w)`, the character dropped last. -/
def unwind (dotdot : Nat) : Char → List Char → List Char
  | _, [] => []
  | last, c :: rest =>
    if (c :: rest).length > dotdot && last != '/' then unwind dotdot c rest else c :: rest

/-- The `..` case of `path.Clean` when `out.w > dotdot`: drop one character,
then keep dropping while above `dotdot` and the dropped one is not a slash. -/
def backtrack (out : List Char) (dotdot : Nat) : List Char :=
  match out.reverse with
  | [] => []
  | c :: rest => (unwind dotdot c rest).reverse

/-- The main loop of `path.Clean`.  The list is the unread input `path[r:]`,
`out` the buffer written so far and `dotdot` the index where `..` must stop.
`copying` is set while the loop that copies a real path element is running. -/
def cleanLoop (rooted : Bool) : Bool → List Char → List Char → Nat → List Char
  | _, [], out, _ => out
  | true, c :: t, out, dotdot =>
    if c == '/' then cleanLoop rooted false t out dotdot
    else cleanLoop rooted true t (out ++ [c]) dotdot
  | false, c :: t, out, dotdot =>
    if c == '/' then cleanLoop rooted false t out dotdot
    else if c == '.' && (t.isEmpty || t.head? == some '/') then cleanLoop rooted false t out dotdot
    else if c == '.' && t.head? == some '.' && (t.tail.isEmpty || t.tail.head? == some '/') then
      match t with
      | [] => out
      | _ :: t2 =>
        if out.length > dotdot then cleanLoop rooted false t2 (backtrack out dotdot) dotdot
        else if !rooted then
          let out1 := (if out.length > 0 then out ++ ['/'] else out) ++ ['.', '.']
          cleanLoop rooted false t2 out1 out1.length
        else cleanLoop rooted false t2 out dotdot
    else
      let out1 := if (rooted && out.length != 1) || (!rooted && out.length != 0)
        then out ++ ['/'] else out
      cleanLoop rooted true t (out1 ++ [c]) dotdot

/-- The function `path.Clean`. -/
def Clean (path : String) : String :=
  if path == "" then "."
  else
    let rooted := path.data.head? == some '/'
    let out := if rooted then cleanLoop true false path.data.tail ['/'] 1
      else cleanLoop false false path.data [] 0
    if out.length == 0 then "." else String.mk out

end path

namespace strings

/-- The function `strings.HasSuffix(s, "/")`. -/
def HasSuffixSlash (s : String) : Bool :=
  s.data.getLast? == some '/'

end strings

namespace http

/-- The function `hexEscapeNonASCII`: every byte at or above `utf8.RuneSelf`
(0x80) becomes `%` followed by the byte in lower-case hexadecimal; every other
byte is kept. -/
def hexEscapeNonASCII (s : String) : String :=
  String.mk (s.toUTF8.data.toList.flatMap fun b =>
    if b.toNat ≥ 128 then '%' :: Nat.toDigits 16 b.toNat else [Char.ofNat b.toNat])

/-- The function `htmlEscape`: the replacer for the five characters
`&`, `<`, `>`, double quote and single quote. -/
def htmlEscape (s : String) : String :=
  String.mk (s.data.flatMap fun c =>
    if c == '&' then "&amp;".data
    else if c == '<' then "&lt;".data
    else if c == '>' then "&gt;".data
    else if c == Char.ofNat 34 then "&#34;".data
    else if c == Char.ofNat 39 then "&#39;".data
    else [c])

/-- The function `http.StatusText`; the empty string for an unknown code. -/
def StatusText (code : Nat) : String :=
  match code with
  | 100 => "Continue"
  | 101 => "Switching Protocols"
  | 102 => "Processing"
  | 103 => "Early Hints"
  | 200 => "OK"
  | 201 => "Created"
  | 202 => "Accepted"
  | 203 => "Non-Authoritative Information"
  | 204 => "No Content"
  | 205 => "Reset Content"
  | 206 => "Partial Content"
  | 207 => "Multi-Status"
  | 208 => "Already Reported"
  | 226 => "IM Used"
  | 300 => "Multiple Choices"
  | 301 => "Moved Permanently"
  | 302 => "Found"
  | 303 => "See Other"
  | 304 => "Not Modified"
  | 305 => "Use Proxy"
  | 307 => "Temporary Redirect"
  | 308 => "Permanent Redirect"
  | 400 => "Bad Request"
  | 401 => "Unauthorized"
  | 402 => "Payment Required"
  | 403 => "Forbidden"
  | 404 => "Not Found"
  | 405 => "Method Not Allowed"
  | 406 => "Not Acceptable"
  | 407 => "Proxy Authentication Required"
  | 408 => "Request Timeout"
  | 409 => "Conflict"
  | 410 => "Gone"
  | 411 => "Length Required"
  | 412 => "Precondition Failed"
  | 413 => "Request Entity Too Large"
  | 414 => "Request URI Too Long"
  | 415 => "Unsupported Media Type"
  | 416 => "Requested Range Not Satisfiable"
  | 417 => "Expectation Failed"
  | 418 => "I" ++ String.singleton (Char.ofNat 39) ++ "m a teapot"
  | 421 => "Misdirected Request"
  | 422 => "Unprocessable Entity"
  | 423 => "Locked"
  | 424 => "Failed Dependency"
  | 425 => "Too Early"
  | 426 => "Upgrade Required"
  | 428 => "Precondition Required"
  | 429 => "Too Many Requests"
  | 431 => "Request Header Fields Too Large"
  | 451 => "Unavailable For Legal Reasons"
  | 500 => "Internal Server Error"
  | 501 => "Not Implemented"
  | 502 => "Bad Gateway"
  | 503 => "Service Unavailable"
  | 504 => "Gateway Timeout"
  | 505 => "HTTP Version Not Supported"
  | 506 => "Variant Also Negotiates"
  | 507 => "Insufficient Storage"
  | 508 => "Loop Detected"
  | 510 => "Not Extended"
  | 511 => "Network Authentication Required"
  | _ => ""

/-- The block of `http.Redirect` that makes a relative URL absolute: a URL
that does not start with a slash is put after the directory of the request
path (`/` when that path is empty); the query is set aside; the rest is
cleaned with `path.Clean`, keeping a trailing slash; the query is put back. -/
def makeAbsolute (r : Request) (url : String) : String :=
  let oldpath := if r.URL.Path == "" then "/" else r.URL.Path
  let url := if url == "" || url.data.head? != some '/'
    then (path.Split oldpath).1 ++ url else url
  let query := String.mk (url.data.dropWhile (fun c => c != '?'))
  let url := String.mk (url.data.takeWhile (fun c => c != '?'))
  let trailing := strings.HasSuffixSlash url
  let url := path.Clean url
  let url := if trailing && !strings.HasSuffixSlash url then url ++ "/" else url
  url ++ query

/-- The first half of `http.Redirect`: the URL that will be sent.  When the
URL parses and has neither scheme nor host it is made absolute; otherwise it
is left as it is. -/
def redirectTarget (Parse : String → Option url.URL) (r : Request) (url : String) : String :=
  match Parse url with
  | none => url
  | some u => if u.Scheme == "" && u.Host == "" then makeAbsolute r url else url

/-- The function `http.Redirect`: set `Location` to the escaped target, set
`Content-Type` for GET and HEAD unless one was already there, write the status
code, and for GET (again unless a `Content-Type` was there) write the short
HTML body with `fmt.Fprintln`. -/
def Redirect (Parse : String → Option url.URL) : RedirectFn :=
  fun w r url code =>
    let url := redirectTarget Parse r url
    let h := w.header
    let hadCT := (h.lookup "Content-Type").isSome
    let h := h.insert "Location" [hexEscapeNonASCII url]
    let h := if !hadCT && (r.Method == "GET" || r.Method == "HEAD")
      then h.insert "Content-Type" ["text/html; charset=utf-8"] else h
    let written := w.written ++ [WriterCall.WriteHeader code]
    let body := "<a href=" ++ String.singleton (Char.ofNat 34) ++ htmlEscape url
      ++ String.singleton (Char.ofNat 34) ++ ">" ++ StatusText code ++ "</a>.\n"
    let written := if !hadCT && r.Method == "GET"
      then written ++ [WriterCall.Write (body ++ "\n")] else written
    ⟨h, written⟩

end http

/-! ## The part of `gopkg.in/yaml.v2` behind `yaml.Unmarshal`

`Unmarshal` parses the input into a tree of nodes and then decodes the tree
into the target, here a `*[]pathAndURL`.  The parser is a parameter.  The
decoder below follows `decode.go` at that target type for documents without
anchors, aliases, explicit tags and merge keys.  The struct has no field tags,
so its keys are the lower-cased field names `path` and `url`.  Decoding never
stops at a type error: it records it, skips the value and goes on; `Unmarshal`
returns a `*TypeError` at the end when any was recorded.  Recorded messages are
shortened to the node kind and the Go type. -/

namespace yaml

/-- A node of a parsed document: a scalar with its text and whether it was
written plain (`implicit`) or quoted, a sequence with its items, or a mapping
with its key and value nodes in order. -/
inductive Node where
  | scalar (value : String) (implicit : Bool)
  | sequence (children : List Node)
  | mapping (children : List (Node × Node))

/-- Whether `resolve` gives `nil` for a scalar: a plain scalar that is empty or
one of `~`, `null`, `Null`, `NULL`. -/
def resolvesToNull (value : String) (implicit : Bool) : Bool :=
  implicit && (value == "" || value == "~" || value == "null" || value == "Null"
    || value == "NULL")

/-- The message `d.terror` records, without line number, tag and value. -/
def terror (kind : String) (into : String) : String :=
  "cannot unmarshal " ++ kind ++ " into " ++ into

/-- The call `d.unmarshal(n, out)` for `out` of kind `string`: the new value,
whether decoding was good, and the type errors recorded.  A null scalar sets
the zero value, any other scalar sets its text, a collection is a type error. -/
def unmarshalString (n : Node) (out : String) : String × Bool × List String :=
  match n with
  | .scalar value implicit =>
    if resolvesToNull value implicit then ("", true, []) else (value, true, [])
  | .sequence _ => (out, false, [terror "!!seq" "string"])
  | .mapping _ => (out, false, [terror "!!map" "string"])

/-- One turn of the loop of `mappingStruct` at the struct `pathAndURL`: decode
the key into a string and skip the pair when that fails; when the key names a
field, decode the value into it; any other key is ignored. -/
def mappingStructStep (acc : pathAndURL × List String) (kv : Node × Node) :
    pathAndURL × List String :=
  let (out, terrors) := acc
  let (name, good, e1) := unmarshalString kv.1 ""
  if !good then (out, terrors ++ e1)
  else if name == "path" then
    let (v, _, e2) := unmarshalString kv.2 out.Path
    ({ out with Path := v }, terrors ++ e1 ++ e2)
  else if name == "url" then
    let (v, _, e2) := unmarshalString kv.2 out.URL
    ({ out with URL := v }, terrors ++ e1 ++ e2)
  else (out, terrors ++ e1)

/-- The function `mappingStruct` at the struct `pathAndURL`: the loop over the
key and value nodes, in order. -/
def mappingStruct (children : List (Node × Node)) (out : pathAndURL) :
    pathAndURL × List String :=
  children.foldl mappingStructStep (out, [])

/-- The call `d.unmarshal(n, out)` for `out` of type `pathAndURL`: a null scalar
sets the zero struct, a mapping is decoded field by field, any other node is a
type error. -/
def unmarshalStruct (n : Node) (out : pathAndURL) : pathAndURL × Bool × List String :=
  match n with
  | .scalar value implicit =>
    if resolvesToNull value implicit then (⟨"", ""⟩, true, [])
    else (out, false, [terror "scalar" "main.pathAndURL"])
  | .sequence _ => (out, false, [terror "!!seq" "main.pathAndURL"])
  | .mapping children =>
    let (out, terrors) := mappingStruct children out
    (out, true, terrors)

/-- One turn of the loop of `sequence` at the type `[]pathAndURL`: decode the
item into a fresh element and keep it when decoding was good. -/
def sequenceStep (acc : List pathAndURL × List String) (c : Node) :
    List pathAndURL × List String :=
  let (e, good, es) := unmarshalStruct c ⟨"", ""⟩
  (if good then acc.1 ++ [e] else acc.1, acc.2 ++ es)

/-- The function `sequence` at the type `[]pathAndURL`: the loop over the
items, in order. -/
def sequenceSlice (children : List Node) : List pathAndURL × List String :=
  children.foldl sequenceStep ([], [])

/-- The call `d.unmarshal(n, out)` for `out` of type `[]pathAndURL`: a null
scalar sets the `nil` slice, a sequence is decoded item by item, any other
node is a type error. -/
def unmarshalSlice (n : Node) (out : List pathAndURL) : List pathAndURL × List String :=
  match n with
  | .scalar value implicit =>
    if resolvesToNull value implicit then ([], [])
    else (out, [terror "scalar" "[]main.pathAndURL"])
  | .mapping _ => (out, [terror "!!map" "[]main.pathAndURL"])
  | .sequence children => sequenceSlice children

/-- The message of a `*yaml.TypeError`. -/
def TypeError (terrors : List String) : GoError :=
  ⟨"yaml: unmarshal errors:\n  " ++ String.intercalate "\n  " terrors⟩

/-- The function `yaml.Unmarshal` at the type `*[]pathAndURL`.  The parser gives
a syntax error, no node (an empty document) or the root node.  A syntax error
is returned as it is and the target is left alone; otherwise the root is
decoded, and a `TypeError` is returned when any type error was recorded. -/
def Unmarshal (parse : Bytes → Except GoError (Option Node)) : UnmarshalFn :=
  fun yml out =>
    match parse yml with
    | .error e => (out, some e)
    | .ok none => (out, none)
    | .ok (some n) =>
      let (out, terrors) := unmarshalSlice n out
      if terrors.length > 0 then (out, some (TypeError terrors)) else (out, none)

end yaml

/-! ## Observations and sample values -/

/-- The branch a call of the closure body belongs to, with the redirect target
and status but without the writer and the request. -/
inductive Branch where
  | redirect (url : String) (code : Nat)
  | fallback
deriving DecidableEq

/-- The branch of a call. -/
def http.Call.branch : http.Call → Branch
  | .Redirect _ _ url code => .redirect url code
  | .ServeHTTP _ _ => .fallback

/-- Whether a call is the redirect write. -/
def http.Call.isRedirect : http.Call → Bool
  | .Redirect _ _ _ _ => true
  | .ServeHTTP _ _ => false

/-- Whether a call is the invocation of the fallback. -/
def http.Call.isFallback : http.Call → Bool
  | .Redirect _ _ _ _ => false
  | .ServeHTTP _ _ => true

/-- The branches taken by one invocation, in order. -/
def http.Outcome.branches (o : http.Outcome) : List Branch :=
  o.calls.map http.Call.branch

/-- One invocation of the closure as a step on the contents of the captured
map: the body reads `pathsToUrls` and assigns neither to it nor to one of its
keys, so the step hands the map on as it found it, next to the outcome. -/
def invoke (Redirect : http.RedirectFn) (fallback : http.Handler) (pathsToUrls : GoMap)
    (q : http.ResponseWriter × http.Request) : GoMap × http.Outcome :=
  (pathsToUrls, MapHandler Redirect pathsToUrls fallback q.1 q.2)

/-- A run of invocations of one closure, each with its own response writer and
request, in the order given: the map after the run and the outcomes in order. -/
def serveAll (Redirect : http.RedirectFn) (fallback : http.Handler) (pathsToUrls : GoMap)
    (reqs : List (http.ResponseWriter × http.Request)) : GoMap × List http.Outcome :=
  reqs.foldl (fun (st : GoMap × List http.Outcome) q =>
    let (m, o) := invoke Redirect fallback st.1 q
    (m, st.2 ++ [o])) (pathsToUrls, [])

/-- The value of the `Location` header in a response writer, if set. -/
def http.ResponseWriter.location (w : http.ResponseWriter) : Option (List String) :=
  w.header.lookup "Location"

/-- A string all of whose characters are ASCII. -/
def isASCII (s : String) : Prop :=
  ∀ c ∈ s.data, c.toNat < 128

/-- A stored URL that `http.Redirect` does not make absolute: `url.Parse`
rejects it, or finds a scheme or a host in it. -/
def keptByRedirect (Parse : String → Option url.URL) (u : String) : Prop :=
  ∀ x, Parse u = some x → ¬ (x.Scheme = "" ∧ x.Host = "")

/-- A response writer nothing has been written to. -/
def freshWriter : http.ResponseWriter := ⟨∅, []⟩

/-- A GET request for a path, with no query, headers or body. -/
def getRequest (p : String) : http.Request := ⟨"GET", ⟨"", "", p, ""⟩, ∅, ""⟩

/-- A fallback that answers 200 with the body `Hello`. -/
def helloFallback : http.Handler :=
  ⟨fun w _ => { w with written := w.written ++ [.WriteHeader 200, .Write "Hello"] }⟩

/-- A stand-in for `url.Parse` that rejects every input. -/
def parseNothing : String → Option url.URL := fun _ => none

/-- A decoder that returns the given entries and no error. -/
def unmarshalTo (es : List pathAndURL) : UnmarshalFn := fun _ _ => (es, none)

/-- A stand-in for the YAML parser that reads every input as the given tree. -/
def parseAs (n : yaml.Node) : Bytes → Except GoError (Option yaml.Node) :=
  fun _ => .ok (some n)

/-- The bytes of a text. -/
def bytesOf (s : String) : Bytes := s.toUTF8.data.toList

/-- Whether a node is a sequence or a mapping. -/
def yaml.Node.isCollection : yaml.Node → Bool
  | .scalar _ _ => false
  | .sequence _ => true
  | .mapping _ => true

/-- A key and value of an element where the key is `path` or `url` and the
value is a sequence or a mapping. -/
def yaml.fieldMistyped (kv : yaml.Node × yaml.Node) : Bool :=
  match kv.1 with
  | .scalar k _ => (k == "path" || k == "url") && kv.2.isCollection
  | .sequence _ => false
  | .mapping _ => false

/-- An item of the list that is a non-null scalar or a sequence, or a mapping
that gives `path` or `url` a sequence or a mapping. -/
def yaml.elementRejected : yaml.Node → Bool
  | .scalar value implicit => !yaml.resolvesToNull value implicit
  | .sequence _ => true
  | .mapping children => children.any yaml.fieldMistyped

/-- A document that is a mapping or a non-null scalar, or a sequence with a
rejected item. -/
def yaml.documentRejected : yaml.Node → Bool
  | .scalar value implicit => !yaml.resolvesToNull value implicit
  | .mapping _ => true
  | .sequence children => children.any yaml.elementRejected

/-- Whether a mapping node has no key with the given name. -/
def yaml.lacksKey (name : String) : yaml.Node → Bool
  | .mapping children => children.all fun kv =>
      match kv.1 with
      | .scalar k _ => k != name
      | .sequence _ => true
      | .mapping _ => true
  | .scalar _ _ => false
  | .sequence _ => false

/-- The tree of the document `- path: /a`: one item, without a `url` key. -/
def docMissingURL : yaml.Node :=
  .sequence [.mapping [(.scalar "path" true, .scalar "/a" true)]]

/-- The tree of the document `- path: /a` with `url: 123` as its second key. -/
def docNumericURL : yaml.Node :=
  .sequence [.mapping [(.scalar "path" true, .scalar "/a" true),
    (.scalar "url" true, .scalar "123" true)]]

/-- The tree of the document `path: /a`, a mapping instead of a list. -/
def docMapping : yaml.Node :=
  .mapping [(.scalar "path" true, .scalar "/a" true)]

/-! ## The dispatcher -/

/-- C2: on a request whose path is not a key of the map, the closure makes
exactly the call `fallback.ServeHTTP(w, r)` with the writer and request it
received, and its response is the fallback's response; with the empty (or
`nil`) map this holds for every request. -/
theorem MapHandler_delegates_on_miss (Redirect : http.RedirectFn) (pathsToUrls : GoMap)
    (fallback : http.Handler) (w : http.ResponseWriter) (r : http.Request)
    (h : pathsToUrls.lookup r.URL.Path = none) :
    MapHandler Redirect pathsToUrls fallback w r
        = ⟨fallback.ServeHTTP w r, [http.Call.ServeHTTP w r]⟩
      ∧ ∀ w1 r1, MapHandler Redirect ∅ fallback w1 r1
        = ⟨fallback.ServeHTTP w1 r1, [http.Call.ServeHTTP w1 r1]⟩ := by
  refine ⟨?_, ?_⟩
  · simp only [MapHandler, h]
  · intro w1 r1
    simp only [MapHandler, Finmap.lookup_empty]

/-- Witness for C2: the spec's scenario, the path `/unknown`. -/
theorem MapHandler_delegates_on_miss_witness :
    (MapHandler (http.Redirect parseNothing)
        (Finmap.singleton "/google" "https://www.google.com") helloFallback freshWriter
        (getRequest "/unknown")).w
      = ⟨∅, [http.WriterCall.WriteHeader 200, http.WriterCall.Write "Hello"]⟩ := by
  rw [(MapHandler_delegates_on_miss (http.Redirect parseNothing)
    (Finmap.singleton "/google" "https://www.google.com") helloFallback freshWriter
    (getRequest "/unknown") (by decide)).1]
  decide

/-- C4: one invocation of the closure makes exactly one call, which is either
the redirect write (when the path is a key) or the fallback invocation (when
it is not): the two counts add up to one. -/
theorem MapHandler_exactly_one_effect (Redirect : http.RedirectFn) (pathsToUrls : GoMap)
    (fallback : http.Handler) (w : http.ResponseWriter) (r : http.Request) :
    ((MapHandler Redirect pathsToUrls fallback w r).calls.countP http.Call.isRedirect
        + (MapHandler Redirect pathsToUrls fallback w r).calls.countP http.Call.isFallback = 1)
      ∧ (MapHandler Redirect pathsToUrls fallback w r).calls.length = 1
      ∧ ((∃ u, pathsToUrls.lookup r.URL.Path = some u
            ∧ MapHandler Redirect pathsToUrls fallback w r
              = ⟨Redirect w r u 302, [http.Call.Redirect w r u 302]⟩)
          ∨ (pathsToUrls.lookup r.URL.Path = none
            ∧ MapHandler Redirect pathsToUrls fallback w r
              = ⟨fallback.ServeHTTP w r, [http.Call.ServeHTTP w r]⟩)) := by
  cases h : (pathsToUrls.lookup r.URL.Path : Option String) with
  | none =>
    have e : MapHandler Redirect pathsToUrls fallback w r
        = ⟨fallback.ServeHTTP w r, [http.Call.ServeHTTP w r]⟩ := by
      simp only [MapHandler, h]
    rw [e]
    exact ⟨rfl, rfl, Or.inr ⟨rfl, rfl⟩⟩
  | some u =>
    have e : MapHandler Redirect pathsToUrls fallback w r
        = ⟨Redirect w r u 302, [http.Call.Redirect w r u 302]⟩ := by
      simp only [MapHandler, h, http.StatusFound]
    rw [e]
    exact ⟨rfl, rfl, Or.inl ⟨u, rfl, rfl⟩⟩

/-! ## Building the map -/

/-- Assignments for other keys leave the value stored under `p` alone. -/
theorem lookup_foldl_insert_of_absent (es : List pathAndURL) (m : GoMap) (p : String)
    (h : ∀ x ∈ es, x.Path ≠ p) :
    (es.foldl (fun (mapPU : GoMap) a => mapPU.insert a.Path a.URL) m).lookup p = m.lookup p := by
  induction es generalizing m with
  | nil => rfl
  | cons a t ih =>
    have ha : p ≠ a.Path := fun e => h a (List.mem_cons_self a t) e.symm
    rw [List.foldl_cons, ih _ (fun x hx => h x (List.mem_cons_of_mem a hx))]
    exact Finmap.lookup_insert_of_ne m ha

/-- The value stored under `p` after the loop is that of the last element with
path `p`, or the initial one when there is no such element. -/
theorem lookup_foldl_insert (es : List pathAndURL) (m : GoMap) (p : String) :
    (es.foldl (fun (mapPU : GoMap) a => mapPU.insert a.Path a.URL) m).lookup p
      = ((es.reverse.find? (fun e => e.Path == p)).map (fun e => e.URL)).orElse
          (fun _ => m.lookup p) := by
  induction es using List.reverseRecOn with
  | nil => rfl
  | append_singleton t a ih =>
    rw [List.foldl_append, List.reverse_append, List.foldl_cons, List.foldl_nil]
    by_cases hp : a.Path = p
    · subst hp
      simp [Finmap.lookup_insert]
    · have hne : p ≠ a.Path := fun e => hp e.symm
      rw [Finmap.lookup_insert_of_ne _ hne, ih]
      simp [hp]

/-- The keys after the loop are the initial keys and the paths of the elements. -/
theorem keys_foldl_insert (es : List pathAndURL) (m : GoMap) :
    (es.foldl (fun (mapPU : GoMap) a => mapPU.insert a.Path a.URL) m).keys
      = m.keys ∪ (es.map fun e => e.Path).toFinset := by
  induction es generalizing m with
  | nil => simp
  | cons a t ih =>
    rw [List.foldl_cons, ih]
    ext k
    simp only [Finset.mem_union, Finmap.mem_keys, Finmap.mem_insert, List.map_cons,
      List.toFinset_cons, Finset.mem_insert]
    tauto

/-- C3: `createMapOfPathAndURL` maps `p` to the URL of the last entry whose path
is `p` (the entry after which no entry has path `p`), and has no key `p` when no
entry has path `p`; for `[{/a, X}, {/a, Y}]` it maps `/a` to `Y`. -/
theorem createMapOfPathAndURL_last_wins (entries : List pathAndURL) (p : String) :
    (createMapOfPathAndURL entries).lookup p
        = (entries.reverse.find? (fun e => e.Path == p)).map (fun e => e.URL)
      ∧ (∀ pre e post, entries = pre ++ e :: post → e.Path = p → (∀ x ∈ post, x.Path ≠ p) →
          (createMapOfPathAndURL entries).lookup p = some e.URL)
      ∧ ((∀ e ∈ entries, e.Path ≠ p) →
          (createMapOfPathAndURL entries).lookup p = none ∧ p ∉ (createMapOfPathAndURL entries).keys)
      ∧ ∀ X Y : String,
          (createMapOfPathAndURL [⟨"/a", X⟩, ⟨"/a", Y⟩]).lookup "/a" = some Y := by
  refine ⟨?_, ?_, ?_, ?_⟩
  · rw [createMapOfPathAndURL, lookup_foldl_insert, Finmap.lookup_empty]
    cases (entries.reverse.find? (fun e => e.Path == p)) <;> rfl
  · intro pre e post he hp hpost
    subst he
    rw [createMapOfPathAndURL, List.foldl_append, List.foldl_cons,
      lookup_foldl_insert_of_absent post _ p hpost, ← hp]
    exact Finmap.lookup_insert _
  · intro h
    have hl : (createMapOfPathAndURL entries).lookup p = none := by
      rw [createMapOfPathAndURL, lookup_foldl_insert_of_absent entries ∅ p h]
      exact Finmap.lookup_empty p
    exact ⟨hl, fun hk => Finmap.lookup_eq_none.mp hl (Finmap.mem_keys.mp hk)⟩
  · intro X Y
    simp only [createMapOfPathAndURL, List.foldl_cons, List.foldl_nil]
    exact Finmap.lookup_insert _

/-- C9: the keys of `createMapOfPathAndURL entries` are exactly the paths that
occur in the list, so its length is the number of distinct paths, at most the
length of the list and equal to it exactly when the paths are pairwise
distinct; one entry gives the one-entry map and no entry the empty map. -/
theorem createMapOfPathAndURL_keys (entries : List pathAndURL) :
    (createMapOfPathAndURL entries).keys = (entries.map fun e => e.Path).toFinset
      ∧ (createMapOfPathAndURL entries).len = (entries.map fun e => e.Path).dedup.length
      ∧ (createMapOfPathAndURL entries).len ≤ entries.length
      ∧ ((createMapOfPathAndURL entries).len = entries.length
          ↔ (entries.map fun e => e.Path).Nodup)
      ∧ (∀ p u : String, createMapOfPathAndURL [⟨p, u⟩] = Finmap.singleton p u
          ∧ (createMapOfPathAndURL [⟨p, u⟩]).len = 1)
      ∧ (createMapOfPathAndURL [] = ∅ ∧ (createMapOfPathAndURL []).len = 0) := by
  have hk : (createMapOfPathAndURL entries).keys = (entries.map fun e => e.Path).toFinset := by
    rw [createMapOfPathAndURL, keys_foldl_insert, Finmap.keys_empty, Finset.empty_union]
  have hs : ∀ p u : String, createMapOfPathAndURL [⟨p, u⟩] = Finmap.singleton p u := by
    intro p u
    apply Finmap.ext_lookup
    intro x
    simp only [createMapOfPathAndURL, List.foldl_cons, List.foldl_nil]
    by_cases hx : x = p
    · subst hx
      rw [Finmap.lookup_insert, Finmap.lookup_singleton_eq]
    · rw [Finmap.lookup_insert_of_ne _ hx, Finmap.lookup_empty]
      have hn : x ∉ (Finmap.singleton p u : GoMap) := by
        rw [Finmap.mem_singleton]
        exact hx
      exact (Finmap.lookup_eq_none.mpr hn).symm
  refine ⟨hk, ?_, ?_, ?_, ?_, rfl, rfl⟩
  · rw [GoMap.len, hk, List.card_toFinset]
  · rw [GoMap.len, hk]
    exact (List.toFinset_card_le _).trans (le_of_eq (List.length_map _ _))
  · rw [GoMap.len, hk, ← List.length_map entries (fun e => e.Path)]
    exact Multiset.toFinset_card_eq_card_iff_nodup
  · intro p u
    refine ⟨hs p u, ?_⟩
    rw [GoMap.len, hs p u, Finmap.keys_singleton, Finset.card_singleton]

/-! ## The YAML front end -/

/-- C5: `YAMLHandler` returns a non-nil error exactly when
`createSliceOfPathAndURL` does; then the error is the decoder's error and the
handler is `nil`; otherwise the error is `nil` and a handler is returned. -/
theorem YAMLHandler_error_iff_decode_error (Redirect : http.RedirectFn)
    (Unmarshal : UnmarshalFn) (yml : Bytes) (fallback : http.Handler) :
    ((YAMLHandler Redirect Unmarshal yml fallback).2 ≠ none
        ↔ (createSliceOfPathAndURL Unmarshal yml).2 ≠ none)
      ∧ (∀ e, (createSliceOfPathAndURL Unmarshal yml).2 = some e →
          (YAMLHandler Redirect Unmarshal yml fallback).2 = some e
            ∧ (YAMLHandler Redirect Unmarshal yml fallback).1.isNone = true)
      ∧ ((createSliceOfPathAndURL Unmarshal yml).2 = none →
          (YAMLHandler Redirect Unmarshal yml fallback).2 = none
            ∧ (YAMLHandler Redirect Unmarshal yml fallback).1.isSome = true) := by
  cases h : (createSliceOfPathAndURL Unmarshal yml).2 with
  | none =>
    have e : YAMLHandler Redirect Unmarshal yml fallback
        = (some (MapHandler Redirect
            (createMapOfPathAndURL (createSliceOfPathAndURL Unmarshal yml).1) fallback), none) := by
      simp only [YAMLHandler, h]
    rw [e]
    simp
  | some err =>
    have e : YAMLHandler Redirect Unmarshal yml fallback = (none, some err) := by
      simp only [YAMLHandler, h]
    rw [e]
    simp

/-- C6: when the input decodes without error to the entries `es`, the handler
`YAMLHandler` returns is `MapHandler (createMapOfPathAndURL es) fallback`, so
the two give the same outcome on every writer and request. -/
theorem YAMLHandler_eq_MapHandler_of_decoded (Redirect : http.RedirectFn)
    (Unmarshal : UnmarshalFn) (yml : Bytes) (fallback : http.Handler) (es : List pathAndURL)
    (h : createSliceOfPathAndURL Unmarshal yml = (es, none)) :
    YAMLHandler Redirect Unmarshal yml fallback
        = (some (MapHandler Redirect (createMapOfPathAndURL es) fallback), none)
      ∧ ∃ hf, (YAMLHandler Redirect Unmarshal yml fallback).1 = some hf
          ∧ ∀ w r, hf w r = MapHandler Redirect (createMapOfPathAndURL es) fallback w r := by
  have e : YAMLHandler Redirect Unmarshal yml fallback
      = (some (MapHandler Redirect (createMapOfPathAndURL es) fallback), none) := by
    simp only [YAMLHandler, h]
  exact ⟨e, _, by rw [e], fun _ _ => rfl⟩

/-- Witness for C6: a decoder that yields the two entries for `/a`. -/
theorem YAMLHandler_eq_MapHandler_of_decoded_witness :
    YAMLHandler (http.Redirect parseNothing) (unmarshalTo [⟨"/a", "X"⟩, ⟨"/a", "Y"⟩]) []
        helloFallback
      = (some (MapHandler (http.Redirect parseNothing)
          (createMapOfPathAndURL [⟨"/a", "X"⟩, ⟨"/a", "Y"⟩]) helloFallback), none) :=
  (YAMLHandler_eq_MapHandler_of_decoded (http.Redirect parseNothing)
    (unmarshalTo [⟨"/a", "X"⟩, ⟨"/a", "Y"⟩]) [] helloFallback [⟨"/a", "X"⟩, ⟨"/a", "Y"⟩] rfl).1

/-! ## Independence of everything but the map and the path -/

/-- A run leaves the map as it was and yields the outcome of each invocation
on that map. -/
theorem serveAll_eq (Redirect : http.RedirectFn) (fallback : http.Handler)
    (pathsToUrls : GoMap) (reqs : List (http.ResponseWriter × http.Request)) :
    serveAll Redirect fallback pathsToUrls reqs
      = (pathsToUrls, reqs.map fun q => MapHandler Redirect pathsToUrls fallback q.1 q.2) := by
  have h : ∀ (l : List (http.ResponseWriter × http.Request)) (acc : List http.Outcome),
      l.foldl (fun (st : GoMap × List http.Outcome) q =>
        let (m, o) := invoke Redirect fallback st.1 q
        (m, st.2 ++ [o])) (pathsToUrls, acc)
      = (pathsToUrls,
          acc ++ l.map fun q => MapHandler Redirect pathsToUrls fallback q.1 q.2) := by
    intro l
    induction l with
    | nil => intro acc; simp
    | cons q t ih =>
      intro acc
      rw [List.foldl_cons]
      exact (ih (acc ++ [MapHandler Redirect pathsToUrls fallback q.1 q.2])).trans
        (by rw [List.map_cons, List.append_assoc, List.singleton_append])
  rw [serveAll, h reqs []]
  rfl

/-- C10: there is a function of the map and the URL path alone that gives the
branch (and redirect target) of every invocation, whatever the writer, the
fallback and the rest of the request; so two requests with the same path take
the same branch; in a run of invocations each one takes the branch that this
function gives for its path, wherever it stands in the run; reordering the run
reorders the outcomes; and the map after an invocation, and after a run, is
the map before. -/
theorem MapHandler_branch_depends_only_on_path :
    ∃ branchOf : GoMap → String → Branch,
      ∀ (Redirect : http.RedirectFn) (pathsToUrls : GoMap) (fallback : http.Handler),
        (∀ w r, (MapHandler Redirect pathsToUrls fallback w r).branches
            = [branchOf pathsToUrls r.URL.Path])
        ∧ (∀ w1 r1 w2 r2, r1.URL.Path = r2.URL.Path →
            (MapHandler Redirect pathsToUrls fallback w1 r1).branches
              = (MapHandler Redirect pathsToUrls fallback w2 r2).branches)
        ∧ (∀ reqs, (serveAll Redirect fallback pathsToUrls reqs).2.map http.Outcome.branches
            = reqs.map fun q => [branchOf pathsToUrls q.2.URL.Path])
        ∧ (∀ reqs1 reqs2, reqs1.Perm reqs2 →
            (serveAll Redirect fallback pathsToUrls reqs1).2.Perm
              (serveAll Redirect fallback pathsToUrls reqs2).2)
        ∧ (∀ q, (invoke Redirect fallback pathsToUrls q).1 = pathsToUrls)
        ∧ (∀ reqs, (serveAll Redirect fallback pathsToUrls reqs).1 = pathsToUrls) := by
  refine ⟨fun m p => match (m.lookup p : Option String) with
    | some u => Branch.redirect u 302
    | none => Branch.fallback, ?_⟩
  intro Redirect pathsToUrls fallback
  have h1 : ∀ w r, (MapHandler Redirect pathsToUrls fallback w r).branches
      = [match (pathsToUrls.lookup r.URL.Path : Option String) with
        | some u => Branch.redirect u 302
        | none => Branch.fallback] := by
    intro w r
    simp only [MapHandler]
    cases (pathsToUrls.lookup r.URL.Path : Option String) <;> rfl
  refine ⟨h1, ?_, ?_, ?_, fun _ => rfl, ?_⟩
  · intro w1 r1 w2 r2 hp
    rw [h1, h1, hp]
  · intro reqs
    rw [serveAll_eq]
    simp only [List.map_map]
    exact List.map_congr_left fun q _ => h1 q.1 q.2
  · intro reqs1 reqs2 hp
    rw [serveAll_eq, serveAll_eq]
    exact hp.map _
  · intro reqs
    rw [serveAll_eq]

/-! ## The `Location` header -/

/-- An ASCII character is encoded in UTF-8 as the one byte with its code. -/
theorem utf8EncodeChar_of_ascii (c : Char) (hc : c.toNat < 128) :
    String.utf8EncodeChar c = [UInt8.ofNat c.toNat] := by
  have hv : c.val ≤ 0x7f := by
    rw [UInt32.le_def]
    show c.val.toNat ≤ 127
    have : c.val.toNat = c.toNat := rfl
    omega
  simp only [String.utf8EncodeChar, hv, if_true]
  rfl

/-- Escaping the bytes of ASCII characters gives the characters back. -/
theorem escape_bytes_of_ascii (l : List Char) (h : ∀ c ∈ l, c.toNat < 128) :
    (l.flatMap String.utf8EncodeChar).flatMap (fun b : UInt8 =>
      if b.toNat ≥ 128 then '%' :: Nat.toDigits 16 b.toNat else [Char.ofNat b.toNat]) = l := by
  induction l with
  | nil => rfl
  | cons c t ih =>
    have hc : c.toNat < 128 := h c (List.mem_cons_self c t)
    have hb : (UInt8.ofNat c.toNat).toNat = c.toNat := by
      show c.toNat % 256 = c.toNat
      omega
    rw [List.flatMap_cons, List.flatMap_append, ih (fun x hx => h x (List.mem_cons_of_mem c hx)),
      utf8EncodeChar_of_ascii c hc]
    simp only [List.flatMap_cons, List.flatMap_nil, List.append_nil, hb]
    have : ¬ c.toNat ≥ 128 := by omega
    simp only [this, if_false, Char.ofNat_toNat, List.singleton_append]

/-- The escape `hexEscapeNonASCII` leaves an ASCII string as it is. -/
theorem hexEscapeNonASCII_of_isASCII (s : String) (h : isASCII s) :
    http.hexEscapeNonASCII s = s := by
  have e : s.toUTF8.data.toList = s.data.flatMap String.utf8EncodeChar := rfl
  rw [http.hexEscapeNonASCII, e, escape_bytes_of_ascii s.data h]

/-- The target `http.Redirect` sends is the URL it was given or that URL made
absolute. -/
theorem redirectTarget_cases (Parse : String → Option url.URL) (r : http.Request) (u : String) :
    http.redirectTarget Parse r u = u ∨ http.redirectTarget Parse r u = http.makeAbsolute r u := by
  unfold http.redirectTarget
  cases Parse u with
  | none => exact Or.inl rfl
  | some x =>
    by_cases hx : (x.Scheme == "" && x.Host == "") = true
    · exact Or.inr (by simp only [hx, if_true])
    · exact Or.inl (by simp only [hx, if_false, Bool.false_eq_true])

/-- A URL that `url.Parse` rejects, or in which it finds a scheme or a host, is
sent as it is. -/
theorem redirectTarget_of_kept (Parse : String → Option url.URL) (r : http.Request) (u : String)
    (h : keptByRedirect Parse u) : http.redirectTarget Parse r u = u := by
  unfold http.redirectTarget
  cases hp : Parse u with
  | none => rfl
  | some x =>
    have hx : ¬ ((x.Scheme == "" && x.Host == "") = true) := by
      intro hc
      simp only [Bool.and_eq_true, beq_iff_eq] at hc
      exact h x hp hc
    simp only [hx, if_false, Bool.false_eq_true]

/-- A URL without scheme and host is made absolute. -/
theorem redirectTarget_of_relative (Parse : String → Option url.URL) (r : http.Request)
    (u : String) (x : url.URL) (hp : Parse u = some x) (hs : x.Scheme = "") (hh : x.Host = "") :
    http.redirectTarget Parse r u = http.makeAbsolute r u := by
  simp [http.redirectTarget, hp, hs, hh]

/-- After `http.Redirect` the `Location` header holds the escaped target. -/
theorem location_Redirect (Parse : String → Option url.URL) (w : http.ResponseWriter)
    (r : http.Request) (u : String) (code : Nat) :
    (http.Redirect Parse w r u code).location
      = some [http.hexEscapeNonASCII (http.redirectTarget Parse r u)] := by
  have hne : ("Location" : String) ≠ "Content-Type" := by decide
  simp only [http.ResponseWriter.location, http.Redirect]
  split
  · rw [Finmap.lookup_insert_of_ne _ hne]
    exact Finmap.lookup_insert _
  · exact Finmap.lookup_insert _

/-- The first call `http.Redirect` makes on the writer is `WriteHeader(code)`. -/
theorem written_Redirect (Parse : String → Option url.URL) (w : http.ResponseWriter)
    (r : http.Request) (u : String) (code : Nat) :
    ∃ rest, (http.Redirect Parse w r u code).written
      = w.written ++ http.WriterCall.WriteHeader code :: rest := by
  simp only [http.Redirect]
  split
  · exact ⟨[_], by rw [List.append_assoc]; rfl⟩
  · exact ⟨[], rfl⟩

/-- Counterexample for C1: the path `/q` is a key with the value
`https://www.google.com/search?q=naïve`, the response to a request for `/q` has
status 302, yet its `Location` is not that value, whatever `url.Parse` makes
of it: the two bytes of `ï` are sent escaped.  And the value `docs/` stored
under `/short/x`, which `url.Parse` accepts without scheme and host, is sent
as `/short/docs/`. -/
theorem MapHandler_hit_target_rewritten :
    (Finmap.singleton "/q" "https://www.google.com/search?q=naïve" : GoMap).lookup
        (getRequest "/q").URL.Path = some "https://www.google.com/search?q=naïve"
      ∧ (¬ ∃ Parse, (MapHandler (http.Redirect Parse)
          (Finmap.singleton "/q" "https://www.google.com/search?q=naïve") helloFallback
          freshWriter (getRequest "/q")).w.location
            = some ["https://www.google.com/search?q=naïve"])
      ∧ (MapHandler (http.Redirect parseNothing)
          (Finmap.singleton "/q" "https://www.google.com/search?q=naïve") helloFallback
          freshWriter (getRequest "/q")).w.location
            = some ["https://www.google.com/search?q=na%c3%afve"]
      ∧ (MapHandler (http.Redirect parseNothing)
          (Finmap.singleton "/q" "https://www.google.com/search?q=naïve") helloFallback
          freshWriter (getRequest "/q")).w.written.head?
            = some (http.WriterCall.WriteHeader 302)
      ∧ (¬ ∃ (Parse : String → Option url.URL) (x : url.URL),
          Parse "docs/" = some x ∧ x.Scheme = "" ∧ x.Host = ""
          ∧ ¬ (MapHandler (http.Redirect Parse) (Finmap.singleton "/short/x" "docs/")
            helloFallback freshWriter (getRequest "/short/x")).w.location
              = some ["/short/docs/"]) := by
  have h1 : (Finmap.singleton "/q" "https://www.google.com/search?q=naïve" : GoMap).lookup
      (getRequest "/q").URL.Path = some "https://www.google.com/search?q=naïve" := by decide
  have h2 : (Finmap.singleton "/short/x" "docs/" : GoMap).lookup
      (getRequest "/short/x").URL.Path = some "docs/" := by decide
  refine ⟨h1, ?_, by decide, by decide, ?_⟩
  · rintro ⟨Parse, h⟩
    simp only [MapHandler, h1, location_Redirect] at h
    rcases redirectTarget_cases Parse (getRequest "/q")
      "https://www.google.com/search?q=naïve" with e | e
    · rw [e] at h
      revert h
      decide
    · rw [e] at h
      revert h
      decide
  · rintro ⟨Parse, x, hp, hs, hh, h⟩
    apply h
    simp only [MapHandler, h2, location_Redirect,
      redirectTarget_of_relative Parse _ "docs/" x hp hs hh]
    decide

/-- C1, amended: on a request whose path is a key of the map with value `u`, the
closure returned by `MapHandler` makes exactly the call
`http.Redirect(w, r, u, 302)` and its response is the one that call produces.
With the `Redirect` of `net/http` the status written is 302 and the `Location`
header holds the escaped target that `Redirect` derives from `u`; that target
is `u` itself when `u` is ASCII and `url.Parse` rejects it or finds a scheme
or a host in it. -/
theorem MapHandler_hit_redirects_302 (Redirect : http.RedirectFn) (pathsToUrls : GoMap)
    (fallback : http.Handler) (w : http.ResponseWriter) (r : http.Request) (u : String)
    (h : pathsToUrls.lookup r.URL.Path = some u) :
    MapHandler Redirect pathsToUrls fallback w r
        = ⟨Redirect w r u 302, [http.Call.Redirect w r u 302]⟩
      ∧ http.StatusFound = 302
      ∧ ∀ Parse,
          (∃ rest, (MapHandler (http.Redirect Parse) pathsToUrls fallback w r).w.written
            = w.written ++ http.WriterCall.WriteHeader 302 :: rest)
          ∧ (MapHandler (http.Redirect Parse) pathsToUrls fallback w r).w.location
            = some [http.hexEscapeNonASCII (http.redirectTarget Parse r u)]
          ∧ (keptByRedirect Parse u → isASCII u →
              (MapHandler (http.Redirect Parse) pathsToUrls fallback w r).w.location
                = some [u]) := by
  have e : ∀ R : http.RedirectFn, MapHandler R pathsToUrls fallback w r
      = ⟨R w r u 302, [http.Call.Redirect w r u 302]⟩ := by
    intro R
    simp only [MapHandler, h, http.StatusFound]
  refine ⟨e Redirect, rfl, ?_⟩
  intro Parse
  rw [e (http.Redirect Parse)]
  refine ⟨written_Redirect Parse w r u 302, location_Redirect Parse w r u 302, ?_⟩
  intro hk ha
  show (http.Redirect Parse w r u 302).location = some [u]
  rw [location_Redirect, redirectTarget_of_kept Parse r u hk, hexEscapeNonASCII_of_isASCII u ha]

/-- Witness for C1: the spec's scenario, `/google` stored with
`https://www.google.com`, on a fresh writer and with a parser that finds the
scheme and the host: status 302 first, and the stored URL in `Location`. -/
theorem MapHandler_hit_redirects_302_witness :
    (MapHandler (http.Redirect fun _ => some ⟨"https", "www.google.com", "", ""⟩)
        (Finmap.singleton "/google" "https://www.google.com") helloFallback freshWriter
        (getRequest "/google")).w.written.head? = some (http.WriterCall.WriteHeader 302)
      ∧ (MapHandler (http.Redirect fun _ => some ⟨"https", "www.google.com", "", ""⟩)
        (Finmap.singleton "/google" "https://www.google.com") helloFallback freshWriter
        (getRequest "/google")).w.location = some ["https://www.google.com"] :=
  have t := (MapHandler_hit_redirects_302
    (http.Redirect fun _ => some ⟨"https", "www.google.com", "", ""⟩)
    (Finmap.singleton "/google" "https://www.google.com") helloFallback freshWriter
    (getRequest "/google") "https://www.google.com" (by decide)).2.2
      (fun _ => some ⟨"https", "www.google.com", "", ""⟩)
  ⟨by decide, t.2.2
    (by
      intro x hx
      cases hx
      decide)
    (by
      unfold isASCII
      decide)⟩

/-- Counterexample for C7: the stored URL `https://example.com/café` is never
sent verbatim, whatever `url.Parse` makes of it (its two non-ASCII bytes are
escaped); and the stored URL `foo`, which `url.Parse` accepts without scheme
and host, is sent as `/a/foo` on a request for `/a/b`. -/
theorem MapHandler_location_not_verbatim :
    (¬ ∃ Parse, (MapHandler (http.Redirect Parse)
          (Finmap.singleton "/cafe" "https://example.com/café") helloFallback freshWriter
          (getRequest "/cafe")).w.location = some ["https://example.com/café"])
      ∧ (MapHandler (http.Redirect parseNothing)
          (Finmap.singleton "/cafe" "https://example.com/café") helloFallback freshWriter
          (getRequest "/cafe")).w.location = some ["https://example.com/caf%c3%a9"]
      ∧ (¬ ∃ (Parse : String → Option url.URL) (x : url.URL),
          Parse "foo" = some x ∧ x.Scheme = "" ∧ x.Host = ""
          ∧ ¬ (MapHandler (http.Redirect Parse) (Finmap.singleton "/a/b" "foo") helloFallback
            freshWriter (getRequest "/a/b")).w.location = some ["/a/foo"]) := by
  have h1 : (Finmap.singleton "/cafe" "https://example.com/café" : GoMap).lookup
      (getRequest "/cafe").URL.Path = some "https://example.com/café" := by decide
  have h2 : (Finmap.singleton "/a/b" "foo" : GoMap).lookup
      (getRequest "/a/b").URL.Path = some "foo" := by decide
  refine ⟨?_, by decide, ?_⟩
  · rintro ⟨Parse, h⟩
    simp only [MapHandler, h1, location_Redirect] at h
    rcases redirectTarget_cases Parse (getRequest "/cafe") "https://example.com/café" with e | e
    · rw [e] at h
      revert h
      decide
    · rw [e] at h
      revert h
      decide
  · rintro ⟨Parse, x, hp, hs, hh, h⟩
    apply h
    simp only [MapHandler, h2, location_Redirect,
      redirectTarget_of_relative Parse _ "foo" x hp hs hh]
    decide

/-- C7, amended: when the stored URL `u` is ASCII and `url.Parse` rejects it or
finds a scheme or a host in it, the `Location` header of the response to a
request whose path maps to `u` is `u` verbatim. -/
theorem MapHandler_location_verbatim_of_kept_ascii (Parse : String → Option url.URL)
    (pathsToUrls : GoMap) (fallback : http.Handler) (w : http.ResponseWriter) (r : http.Request)
    (u : String) (h : pathsToUrls.lookup r.URL.Path = some u) (hk : keptByRedirect Parse u)
    (ha : isASCII u) :
    (MapHandler (http.Redirect Parse) pathsToUrls fallback w r).w.location = some [u] := by
  simp only [MapHandler, h, location_Redirect, redirectTarget_of_kept Parse r u hk,
    hexEscapeNonASCII_of_isASCII u ha]

/-- Witness for C7: the spec's scenario, `/google` stored with an absolute ASCII
URL, with a parser that finds the scheme and the host. -/
theorem MapHandler_location_verbatim_of_kept_ascii_witness :
    (MapHandler (http.Redirect fun _ => some ⟨"https", "www.google.com", "", ""⟩)
      (Finmap.singleton "/google" "https://www.google.com") helloFallback freshWriter
      (getRequest "/google")).w.location = some ["https://www.google.com"] :=
  MapHandler_location_verbatim_of_kept_ascii
    (fun _ => some ⟨"https", "www.google.com", "", ""⟩)
    (Finmap.singleton "/google" "https://www.google.com") helloFallback freshWriter
    (getRequest "/google") "https://www.google.com" (by decide)
    (by
      intro x hx
      cases hx
      decide)
    (by
      unfold isASCII
      decide)

/-! ## Decoding errors -/

/-- A turn of the field loop never drops a recorded type error. -/
theorem mappingStructStep_terrors_le (acc : pathAndURL × List String)
    (kv : yaml.Node × yaml.Node) :
    acc.2.length ≤ (yaml.mappingStructStep acc kv).2.length := by
  obtain ⟨out, terrors⟩ := acc
  obtain ⟨k, v⟩ := kv
  cases k <;> cases v <;> simp only [yaml.mappingStructStep, yaml.unmarshalString] <;>
    (repeat' split) <;> simp

/-- A turn of the field loop on a mistyped field records a type error. -/
theorem mappingStructStep_terrors_lt (acc : pathAndURL × List String)
    (kv : yaml.Node × yaml.Node) (h : yaml.fieldMistyped kv = true) :
    acc.2.length < (yaml.mappingStructStep acc kv).2.length := by
  obtain ⟨out, terrors⟩ := acc
  obtain ⟨k, v⟩ := kv
  cases k with
  | sequence _ => simp [yaml.fieldMistyped] at h
  | mapping _ => simp [yaml.fieldMistyped] at h
  | scalar name implicit =>
    simp only [yaml.fieldMistyped, Bool.and_eq_true, Bool.or_eq_true, beq_iff_eq] at h
    obtain ⟨hn, hv⟩ := h
    have hnull : yaml.resolvesToNull name implicit = false := by
      rcases hn with rfl | rfl <;> cases implicit <;> decide
    cases v with
    | scalar _ _ => simp [yaml.Node.isCollection] at hv
    | sequence _ =>
      rcases hn with rfl | rfl <;>
        simp [yaml.mappingStructStep, yaml.unmarshalString, hnull]
    | mapping _ =>
      rcases hn with rfl | rfl <;>
        simp [yaml.mappingStructStep, yaml.unmarshalString, hnull]

/-- The field loop never drops a recorded type error. -/
theorem foldl_mappingStructStep_terrors_le (kvs : List (yaml.Node × yaml.Node))
    (acc : pathAndURL × List String) :
    acc.2.length ≤ (kvs.foldl yaml.mappingStructStep acc).2.length := by
  induction kvs generalizing acc with
  | nil => exact le_refl _
  | cons kv t ih => exact (mappingStructStep_terrors_le acc kv).trans (ih _)

/-- The field loop over a mapping with a mistyped field records a type error. -/
theorem foldl_mappingStructStep_terrors_lt (kvs : List (yaml.Node × yaml.Node))
    (acc : pathAndURL × List String) (h : kvs.any yaml.fieldMistyped = true) :
    acc.2.length < (kvs.foldl yaml.mappingStructStep acc).2.length := by
  induction kvs generalizing acc with
  | nil => simp at h
  | cons kv t ih =>
    rw [List.any_cons, Bool.or_eq_true] at h
    rw [List.foldl_cons]
    rcases h with h | h
    · exact (mappingStructStep_terrors_lt acc kv h).trans_le
        (foldl_mappingStructStep_terrors_le t _)
    · exact (mappingStructStep_terrors_le acc kv).trans_lt (ih _ h)

/-- Decoding a rejected item records a type error. -/
theorem unmarshalStruct_terrors_of_rejected (n : yaml.Node) (out : pathAndURL)
    (h : yaml.elementRejected n = true) : 0 < (yaml.unmarshalStruct n out).2.2.length := by
  cases n with
  | scalar value implicit =>
    simp only [yaml.elementRejected, Bool.not_eq_true'] at h
    simp [yaml.unmarshalStruct, h]
  | sequence _ => simp [yaml.unmarshalStruct]
  | mapping children =>
    simp only [yaml.elementRejected] at h
    simp only [yaml.unmarshalStruct, yaml.mappingStruct]
    exact foldl_mappingStructStep_terrors_lt children (out, []) h

/-- The item loop never drops a recorded type error. -/
theorem foldl_sequenceStep_terrors_le (cs : List yaml.Node)
    (acc : List pathAndURL × List String) :
    acc.2.length ≤ (cs.foldl yaml.sequenceStep acc).2.length := by
  induction cs generalizing acc with
  | nil => exact le_refl _
  | cons c t ih =>
    refine le_trans ?_ (ih _)
    simp [yaml.sequenceStep]

/-- The item loop over a list with a rejected item records a type error. -/
theorem foldl_sequenceStep_terrors_lt (cs : List yaml.Node)
    (acc : List pathAndURL × List String) (h : cs.any yaml.elementRejected = true) :
    acc.2.length < (cs.foldl yaml.sequenceStep acc).2.length := by
  induction cs generalizing acc with
  | nil => simp at h
  | cons c t ih =>
    rw [List.any_cons, Bool.or_eq_true] at h
    rw [List.foldl_cons]
    rcases h with h | h
    · refine lt_of_lt_of_le ?_ (foldl_sequenceStep_terrors_le t _)
      have hpos := unmarshalStruct_terrors_of_rejected c ⟨"", ""⟩ h
      show acc.2.length < (acc.2 ++ (yaml.unmarshalStruct c ⟨"", ""⟩).2.2).length
      rw [List.length_append]
      omega
    · refine lt_of_le_of_lt ?_ (ih _ h)
      simp [yaml.sequenceStep]

/-- Decoding a rejected document records a type error. -/
theorem unmarshalSlice_terrors_of_rejected (n : yaml.Node) (out : List pathAndURL)
    (h : yaml.documentRejected n = true) : 0 < (yaml.unmarshalSlice n out).2.length := by
  cases n with
  | scalar value implicit =>
    simp only [yaml.documentRejected, Bool.not_eq_true'] at h
    simp [yaml.unmarshalSlice, h]
  | mapping _ => simp [yaml.unmarshalSlice]
  | sequence children =>
    simp only [yaml.documentRejected] at h
    simp only [yaml.unmarshalSlice, yaml.sequenceSlice]
    exact foldl_sequenceStep_terrors_lt children ([], []) h

/-- The error `yaml.Unmarshal` returns for a syntax error or a rejected
document is not `nil`. -/
theorem Unmarshal_error_of_rejected (parse : Bytes → Except GoError (Option yaml.Node))
    (yml : Bytes) (out : List pathAndURL)
    (h : (∃ e, parse yml = .error e)
      ∨ ∃ n, parse yml = .ok (some n) ∧ yaml.documentRejected n = true) :
    (yaml.Unmarshal parse yml out).2 ≠ none := by
  rcases h with ⟨e, he⟩ | ⟨n, hn, hr⟩
  · simp [yaml.Unmarshal, he]
  · have := unmarshalSlice_terrors_of_rejected n out hr
    simp only [yaml.Unmarshal, hn]
    rw [if_pos (by simpa using this)]
    simp

/-- When decoding fails, `YAMLHandler` returns no handler and the same error. -/
theorem YAMLHandler_of_decode_error (Redirect : http.RedirectFn) (Unmarshal : UnmarshalFn)
    (yml : Bytes) (fallback : http.Handler) (e : GoError)
    (h : (createSliceOfPathAndURL Unmarshal yml).2 = some e) :
    YAMLHandler Redirect Unmarshal yml fallback = (none, some e) := by
  simp only [YAMLHandler, h]

/-- Counterexample for C8: the list `- path: /a`, whose only item has no `url`
key, decodes without error to the entry with URL `""`, whatever parser reads
it as that tree, and `YAMLHandler` returns a handler for it; the item with
`url: 123` decodes without error to the URL `123`; and the null document `~`,
which is not a sequence, decodes without error to no entries. -/
theorem createSliceOfPathAndURL_accepts_missing_url :
    yaml.lacksKey "url" (.mapping [(.scalar "path" true, .scalar "/a" true)]) = true
      ∧ (¬ ∃ (parse : Bytes → Except GoError (Option yaml.Node)) (yml : Bytes),
          parse yml = .ok (some docMissingURL)
          ∧ (createSliceOfPathAndURL (yaml.Unmarshal parse) yml).2 ≠ none)
      ∧ createSliceOfPathAndURL (yaml.Unmarshal (parseAs docMissingURL))
          (bytesOf "- path: /a\n") = ([⟨"/a", ""⟩], none)
      ∧ (YAMLHandler (http.Redirect parseNothing) (yaml.Unmarshal (parseAs docMissingURL))
          (bytesOf "- path: /a\n") helloFallback).1.isSome = true
      ∧ (YAMLHandler (http.Redirect parseNothing) (yaml.Unmarshal (parseAs docMissingURL))
          (bytesOf "- path: /a\n") helloFallback).2 = none
      ∧ createSliceOfPathAndURL (yaml.Unmarshal (parseAs docNumericURL))
          (bytesOf "- path: /a\n  url: 123\n") = ([⟨"/a", "123"⟩], none)
      ∧ createSliceOfPathAndURL (yaml.Unmarshal (parseAs (.scalar "~" true)))
          (bytesOf "~") = ([], none) := by
  refine ⟨by decide, ?_, by decide, by decide, by decide, by decide, by decide⟩
  rintro ⟨parse, yml, hp, he⟩
  apply he
  simp only [createSliceOfPathAndURL, yaml.Unmarshal, hp]
  decide

/-- C8, amended: `createSliceOfPathAndURL` returns an error, and `YAMLHandler`
returns that error and no handler, when the input is not valid YAML (the error
is then the parser's), when the document is a mapping or a non-null scalar,
when an item of the list is a non-null scalar or a sequence, and when an item
gives `path` or `url` a sequence or a mapping. -/
theorem createSliceOfPathAndURL_error_of_rejected (Redirect : http.RedirectFn)
    (parse : Bytes → Except GoError (Option yaml.Node)) (yml : Bytes)
    (fallback : http.Handler)
    (h : (∃ e, parse yml = .error e)
      ∨ ∃ n, parse yml = .ok (some n) ∧ yaml.documentRejected n = true) :
    (createSliceOfPathAndURL (yaml.Unmarshal parse) yml).2 ≠ none
      ∧ (∀ e, parse yml = .error e →
          createSliceOfPathAndURL (yaml.Unmarshal parse) yml = ([], some e))
      ∧ (YAMLHandler Redirect (yaml.Unmarshal parse) yml fallback).2
          = (createSliceOfPathAndURL (yaml.Unmarshal parse) yml).2
      ∧ (YAMLHandler Redirect (yaml.Unmarshal parse) yml fallback).1.isNone = true := by
  have hne : (createSliceOfPathAndURL (yaml.Unmarshal parse) yml).2 ≠ none :=
    Unmarshal_error_of_rejected parse yml [] h
  obtain ⟨e, he⟩ := Option.ne_none_iff_exists'.mp hne
  have hy := YAMLHandler_of_decode_error Redirect (yaml.Unmarshal parse) yml fallback e he
  refine ⟨hne, ?_, ?_, ?_⟩
  · intro e1 h1
    simp only [createSliceOfPathAndURL, yaml.Unmarshal, h1]
  · rw [hy, he]
  · rw [hy]
    rfl

/-- Witness for C8: the document `path: /a`, a mapping instead of a list. -/
theorem createSliceOfPathAndURL_error_of_rejected_witness :
    (createSliceOfPathAndURL (yaml.Unmarshal (parseAs docMapping)) (bytesOf "path: /a\n")).2
        ≠ none
      ∧ (YAMLHandler (http.Redirect parseNothing) (yaml.Unmarshal (parseAs docMapping))
          (bytesOf "path: /a\n") helloFallback).1.isNone = true :=
  have h := createSliceOfPathAndURL_error_of_rejected (http.Redirect parseNothing)
    (parseAs docMapping) (bytesOf "path: /a\n") helloFallback
    (Or.inr ⟨docMapping, rfl, by decide⟩)
  ⟨h.1, h.2.2.2⟩
